import Mathlib

/-!
# Verification of the ghOSt CFS scheduler core and the RocksDB dispatch orchestrator

Shallow embedding of `schedulers/cfs/cfs_scheduler.cc` and
`experiments/rocksdb/ghost_orchestrator.cc`.

Durations (`absl::Duration` values such as `vruntime`, `min_granularity`,
`latency`) are modelled as natural numbers of nanoseconds, matching the
exact integer-nanosecond arithmetic performed by the source.
Heap objects (`CfsTask*`) are modelled by value; pointer identity is the
stable global task id `gtid` (tasks in a run queue have pairwise distinct
gtids, which theorems take as a hypothesis where it matters).
-/

namespace GhostCfs

/-- `CfsTaskState::State` (kNumStates is a sentinel, never stored). -/
inductive CfsTaskState where
  | kBlocked
  | kRunnable
  | kRunning
  | kDone
deriving Repr, DecidableEq

/-- `CfsTask`: the scheduled entity.  `sw_runtime` models
`task->status_word.runtime()`, the kernel-exported runtime counter. -/
structure CfsTask where
  gtid : Nat
  cpu : Int
  seqnum : Nat
  vruntime : Nat
  runtime_at_first_pick_ns : Nat
  run_state : CfsTaskState
  sw_runtime : Nat
deriving Repr, DecidableEq

/-- Modelled from the spec: `CfsTask::Less`, the ordering of the run queue
multiset, is declared in `cfs_scheduler.h` (not part of the sources); the
spec orders the queue by "(vruntime ascending, task identity)" with
"ties broken by identity". -/
def lessTask (a b : CfsTask) : Bool :=
  a.vruntime < b.vruntime || (a.vruntime == b.vruntime && a.gtid < b.gtid)

/-- The smaller of two tasks under `lessTask` (left-biased, as multiset
insertion order is irrelevant for distinct keys). -/
def minTask (a b : CfsTask) : CfsTask :=
  if lessTask b a then b else a

/-- `*rq_.begin()`: the minimum of the multiset contents under
`CfsTask::Less`, i.e. the task with smallest `(vruntime, gtid)`. -/
def leftmost : List CfsTask → Option CfsTask
  | [] => none
  | t :: ts => some (ts.foldl minTask t)

/-- `CfsRq`: the per-CPU run queue.  `tasks` holds the contents of the
`std::multiset` `rq_` (order of the list is irrelevant: the multiset's
`begin()` is modelled by `leftmost`). -/
structure CfsRq where
  min_vruntime : Nat
  min_granularity : Nat
  latency : Nat
  tasks : List CfsTask
deriving Repr, DecidableEq

/-- `CfsRq::InsertTaskIntoRq`: insert and cache
`min_vruntime_ = (*rq_.begin())->vruntime`. -/
def insertTaskIntoRq (rq : CfsRq) (t : CfsTask) : CfsRq :=
  let tasks := t :: rq.tasks
  { rq with
    tasks := tasks
    min_vruntime :=
      match leftmost tasks with
      | some l => l.vruntime
      | none => rq.min_vruntime }

/-- `CfsRq::EnqueueTask` (the `CHECK_GE(task->cpu, 0)` is a hypothesis of
the theorems): clamp `task->vruntime` to
`max(min_vruntime_, task->vruntime)`, set the task runnable, insert.
Returns the updated run queue together with the task as mutated. -/
def enqueueTask (rq : CfsRq) (t : CfsTask) : CfsRq × CfsTask :=
  let t' := { t with
              vruntime := max rq.min_vruntime t.vruntime
              run_state := CfsTaskState.kRunnable }
  (insertTaskIntoRq rq t', t')

/-- `CfsRq::PutPrevTask`: re-insert a previously on-cpu task, leaving its
state and vruntime untouched (the `CHECK_GE(task->cpu, 0)` is again a
hypothesis where needed). -/
def putPrevTask (rq : CfsRq) (t : CfsTask) : CfsRq :=
  insertTaskIntoRq rq t

/-- `CfsRq::Erase`: `rq_.erase(task)` removes the (unique, by gtid)
occurrence of the task; absence is tolerated. -/
def eraseTaskFromRq (rq : CfsRq) (g : Nat) : CfsRq :=
  { rq with tasks := rq.tasks.eraseP (fun u => u.gtid == g) }

/-- `CfsRq::UpdateMinVruntime(cs)`; `current` is the value `cs->current`
points to at the time of the call (`none` when the pointer is null). -/
def updateMinVruntime (rq : CfsRq) (current : Option CfsTask) : CfsRq :=
  let lm := leftmost rq.tasks
  let curr : Option CfsTask :=
    match current with
    | some c =>
      if c.run_state = CfsTaskState.kRunnable ∨
         c.run_state = CfsTaskState.kRunning then some c else none
    | none => none
  let vruntime : Nat :=
    match lm, curr with
    | some l, some c => min c.vruntime l.vruntime
    | some l, none => l.vruntime
    | none, some c => c.vruntime
    | none, none => rq.min_vruntime
  { rq with min_vruntime := max rq.min_vruntime vruntime }

/-- `CfsRq::MinPreemptionGranularity`: with `tasks = rq_.size() + 1`,
return `min_granularity_` when `tasks * min_granularity_ > latency_`, else
`(latency_ + Nanoseconds(tasks - 1)) / tasks`. -/
def minPreemptionGranularity (rq : CfsRq) : Nat :=
  let tasks := rq.tasks.length + 1
  if tasks * rq.min_granularity > rq.latency then
    rq.min_granularity
  else
    (rq.latency + (tasks - 1)) / tasks

/-- The reconciliation switch on `prev->run_state.Get()` shared by
`CfsRq::PickNextTask` and the prio-boost path of
`CfsScheduler::CfsSchedule`:
kBlocked → leave off-queue; kDone → `Erase` + `FreeTask`;
kRunnable → `PutPrevTask`; kRunning → `PutPrevTask` then demote to
kRunnable (the inserted object is the demoted one, by pointer aliasing).
Returns (run queue, the value `cs->current` points to afterwards, gtids
passed to `allocator->FreeTask`). -/
def reconcilePrev (prev : Option CfsTask) (rq : CfsRq) :
    CfsRq × Option CfsTask × List Nat :=
  match prev with
  | none => (rq, none, [])
  | some p =>
    match p.run_state with
    | CfsTaskState.kBlocked => (rq, some p, [])
    | CfsTaskState.kDone => (eraseTaskFromRq rq p.gtid, some p, [p.gtid])
    | CfsTaskState.kRunnable => (putPrevTask rq p, some p, [])
    | CfsTaskState.kRunning =>
      let p' := { p with run_state := CfsTaskState.kRunnable }
      (putPrevTask rq p', some p', [])

/-- Result of `CfsRq::PickNextTask`: the returned task, the run queue, the
`cs->preempt_curr` flag on exit, and the gtids freed via the allocator. -/
structure PickResult where
  next : Option CfsTask
  rq : CfsRq
  preempt_curr : Bool
  freed : List Nat
deriving Repr, DecidableEq

/-- The tail of `CfsRq::PickNextTask` past the early return: clear the
preemption flag, reconcile `prev`, then either return null on an empty
queue or take the leftmost task, mark it kRunning, snapshot
`runtime_at_first_pick_ns` from its status word, erase it, and update
`min_vruntime`.  `cs->current` still points to `prev` throughout the call,
so the current task fed to `UpdateMinVruntime` is the reconciled `prev`
(mutated in place when the picked task is that same object). -/
def pickNextTaskSlow (prev : Option CfsTask) (rq : CfsRq) : PickResult :=
  let rc := reconcilePrev prev rq
  match leftmost rc.1.tasks with
  | none =>
    { next := none
      rq := updateMinVruntime rc.1 rc.2.1
      preempt_curr := false
      freed := rc.2.2 }
  | some t =>
    let t' := { t with
                run_state := CfsTaskState.kRunning
                runtime_at_first_pick_ns := t.sw_runtime }
    let rq2 := eraseTaskFromRq rc.1 t.gtid
    let curr' : Option CfsTask :=
      match rc.2.1 with
      | some c => if c.gtid = t.gtid then some t' else some c
      | none => none
    { next := some t'
      rq := updateMinVruntime rq2 curr'
      preempt_curr := false
      freed := rc.2.2 }

/-- `CfsRq::PickNextTask(prev, allocator, cs)`: keep running `prev` when it
is still kRunning and `cs->preempt_curr` is unset; otherwise fall through
to the reconcile-and-pick path. -/
def pickNextTask (prev : Option CfsTask) (rq : CfsRq) (preemptCurr : Bool) :
    PickResult :=
  match prev with
  | some p =>
    if p.run_state = CfsTaskState.kRunning && !preemptCurr then
      { next := some p, rq := rq, preempt_curr := preemptCurr, freed := [] }
    else
      pickNextTaskSlow (some p) rq
  | none => pickNextTaskSlow none rq

/-! ## Migrate (`CfsScheduler::Migrate`) -/

/-- Outcome of one `Channel::AssociateTask` attempt: success, failure with
`errno == ESTALE` (stale barrier), or failure with any other errno. -/
inductive AssocResult where
  | ok
  | staleBarrier
  | otherFailure
deriving Repr, DecidableEq

/-- A successful migration: the task as mutated (cpu set, then clamped and
marked runnable by `EnqueueTask`), the target run queue, and the ping of
the target CPU. -/
structure MigrateSuccess where
  task : CfsTask
  rq : CfsRq
  pinged : Bool
deriving Repr, DecidableEq

/-- `CfsScheduler::Migrate(task, cpu, seqnum)`.  `assoc n` is the outcome
the channel would give to the n-th `AssociateTask` attempt; the source
makes exactly one attempt, wrapped in `CHECK(...)`, so any failure —
stale barrier included — aborts (modelled as `none`), as does a violation
of `CHECK_EQ(task->cpu, -1)`.  On success it sets `task->cpu`, enqueues
onto the target run queue, and pings the target CPU. -/
def migrate (t : CfsTask) (cpuId : Nat) (rq : CfsRq)
    (assoc : Nat → AssocResult) : Option MigrateSuccess :=
  if t.cpu = -1 then
    match assoc 0 with
    | AssocResult.ok =>
      let t' := { t with cpu := (cpuId : Int) }
      let er := enqueueTask rq t'
      some { task := er.2, rq := er.1, pinged := true }
    | AssocResult.staleBarrier => none
    | AssocResult.otherFailure => none
  else none

/-- Modelled from the spec: the claimed behaviour of `Migrate` — "a
stale-barrier failure is retried until success, while any failure other
than a stale barrier is fatal (aborts)".  `fuel` bounds the retries so the
definition is total; the claim's retry loop corresponds to a large enough
fuel. -/
def migrateSpecRetry (t : CfsTask) (cpuId : Nat) (rq : CfsRq)
    (assoc : Nat → AssocResult) : Nat → Nat → Option MigrateSuccess
  | _, 0 => none
  | i, fuel + 1 =>
    if t.cpu = -1 then
      match assoc i with
      | AssocResult.ok =>
        let t' := { t with cpu := (cpuId : Int) }
        let er := enqueueTask rq t'
        some { task := er.2, rq := er.1, pinged := true }
      | AssocResult.staleBarrier => migrateSpecRetry t cpuId rq assoc (i + 1) fuel
      | AssocResult.otherFailure => none
    else none

/-! ## Single-task lifecycle (message handlers + scheduling passes)

Specialization of the scheduler to one CPU and one task, faithful to the
handler bodies: `TaskNew`, `TaskRunnable`, `TaskBlocked`/`TaskYield`,
`HandleTaskDone` (TaskDead/TaskDeparted), `CfsRq::PickNextTask` as invoked
from `CfsSchedule`, the prio-boost reconciliation path of `CfsSchedule`,
and `CheckPreemptTick`.  With a single task, the run queue is empty iff
the task is not in it, so the whole CPU state collapses to a few flags. -/

/-- State of the one-CPU, one-task system.  `frees` counts calls to
`allocator->FreeTask(task)`; `doneHandled` records that `HandleTaskDone`
has run. -/
structure TaskSysState where
  placed : Bool
  rstate : CfsTaskState
  inRq : Bool
  isCurrent : Bool
  preempt : Bool
  frees : Nat
  doneHandled : Bool
deriving Repr, DecidableEq

/-- `CfsScheduler::TaskNew`: state set to kBlocked; when the payload is
runnable, `Migrate` places the task (cpu set) and `EnqueueTask` makes it
runnable and queued. -/
def initTaskSys (runnable : Bool) : TaskSysState :=
  if runnable then
    { placed := true, rstate := CfsTaskState.kRunnable, inRq := true
      isCurrent := false, preempt := false, frees := 0, doneHandled := false }
  else
    { placed := false, rstate := CfsTaskState.kBlocked, inRq := false
      isCurrent := false, preempt := false, frees := 0, doneHandled := false }

/-- Events after `TaskNew`: the task-lifecycle messages and the scheduler
passes that interleave with them. -/
inductive TOp where
  | opRunnable
  | opBlocked
  | opDead
  | opPick
  | opPrioBoost
  | opTick
deriving Repr, DecidableEq

/-- Guards: the kernel emits `TaskRunnable` only for a blocked task
(state-machine table, §4.1); `TaskBlocked`/`TaskYield` carry
`CHECK_EQ(cs->current, task)` and arrive for the on-cpu task;
`TaskDead`/`TaskDeparted` arrive once.  Scheduler passes are unguarded. -/
def taskGuard (s : TaskSysState) : TOp → Bool
  | TOp.opRunnable => s.rstate == CfsTaskState.kBlocked
  | TOp.opBlocked =>
    s.isCurrent && (s.rstate == CfsTaskState.kRunning ||
                    s.rstate == CfsTaskState.kRunnable)
  | TOp.opDead => !(s.rstate == CfsTaskState.kDone)
  | TOp.opPick => true
  | TOp.opPrioBoost => true
  | TOp.opTick => true

/-- The reconciliation switch on `prev->run_state` (shared by
`PickNextTask` and the prio-boost path of `CfsSchedule`), specialized to
the single task being `cs->current`:
kBlocked → nothing; kDone → `Erase` + `FreeTask`;
kRunnable → `PutPrevTask`; kRunning → `PutPrevTask` + demote. -/
def reconcileCurr (s : TaskSysState) : TaskSysState :=
  match s.rstate with
  | CfsTaskState.kBlocked => s
  | CfsTaskState.kDone => { s with inRq := false, frees := s.frees + 1 }
  | CfsTaskState.kRunnable => { s with inRq := true }
  | CfsTaskState.kRunning =>
    { s with inRq := true, rstate := CfsTaskState.kRunnable }

/-- One step of the system. -/
def stepTask (s : TaskSysState) : TOp → TaskSysState
  | TOp.opRunnable =>
    -- CfsScheduler::TaskRunnable
    if !s.placed then
      { s with placed := true, rstate := CfsTaskState.kRunnable, inRq := true }
    else if s.isCurrent then
      { s with rstate := CfsTaskState.kRunnable }
    else
      { s with rstate := CfsTaskState.kRunnable, inRq := true }
  | TOp.opBlocked =>
    -- CfsScheduler::TaskBlocked (and TaskSwitchto)
    { s with rstate := CfsTaskState.kBlocked }
  | TOp.opDead =>
    -- CfsScheduler::HandleTaskDone
    let s' := { s with rstate := CfsTaskState.kDone, doneHandled := true }
    if !s.isCurrent then { s' with inRq := false, frees := s'.frees + 1 }
    else s'
  | TOp.opTick =>
    -- CfsScheduler::CheckPreemptTick, when the runtime exceeds the
    -- preemption granularity
    if s.isCurrent then { s with preempt := true } else s
  | TOp.opPick =>
    -- CfsSchedule (non-boosted): next := PickNextTask(cs->current, cs);
    -- cs->current := next
    if s.isCurrent then
      if s.rstate == CfsTaskState.kRunning && !s.preempt then s
      else
        let s' := reconcileCurr s
        if s'.inRq then
          { s' with rstate := CfsTaskState.kRunning, inRq := false
                    isCurrent := true, preempt := false }
        else { s' with isCurrent := false, preempt := false }
    else
      if s.inRq then
        { s with rstate := CfsTaskState.kRunning, inRq := false
                 isCurrent := true, preempt := false }
      else { s with isCurrent := false, preempt := false }
  | TOp.opPrioBoost =>
    -- CfsSchedule with prio_boost: reconcile cs->current, clear it, yield
    if s.isCurrent then
      { reconcileCurr s with isCurrent := false, preempt := false }
    else s

/-- States reachable from `TaskNew` through guarded steps. -/
inductive TaskReach : TaskSysState → Prop where
  | init (r : Bool) : TaskReach (initTaskSys r)
  | step {s : TaskSysState} (op : TOp) :
      TaskReach s → taskGuard s op = true → TaskReach (stepTask s op)

end GhostCfs

namespace GhostOrchestrator

/-! ## Dispatch orchestrator (`experiments/rocksdb/ghost_orchestrator.cc`) -/

/-- The load generator's view of one worker: the atomic
`WorkerWork::num_requests` and the backing idle state.

Modelled from the spec: `PrioTableHelper::IsIdle` / `MarkIdle` /
`MarkRunnable` (and the futex `ThreadWait` equivalents) are not part of
the sources; per the spec they expose one idle bit per worker — `MarkIdle`
sets it, marking runnable (setting the `SCHED_ITEM_RUNNABLE` flag)
clears it. -/
structure WorkerView where
  num_requests : Nat
  idle : Bool
deriving Repr, DecidableEq

/-- `GhostOrchestrator::SkipIdleWorker`: on the priority-table path, skip
the worker unless its idle bit is set; on the futex path never skip. -/
def skipIdleWorker (usesPrioTable : Bool) (w : WorkerView) : Bool :=
  if usesPrioTable then !w.idle else false

/-- Body of `GetIdleWorkerSIDs`: workers indexed `0..n-1`, SIDs offset by
one past the load generator (SID 0). -/
def getIdleWorkerSIDsAux (usesPrioTable : Bool) :
    List WorkerView → Nat → List Nat
  | [], _ => []
  | w :: ws, sid =>
    (if w.num_requests == 0 && !skipIdleWorker usesPrioTable w then [sid]
     else []) ++ getIdleWorkerSIDsAux usesPrioTable ws (sid + 1)

/-- `GhostOrchestrator::GetIdleWorkerSIDs`: collect the SIDs whose
`num_requests` (acquire load) is 0 and which `SkipIdleWorker` lets pass. -/
def getIdleWorkerSIDs (usesPrioTable : Bool) (ws : List WorkerView) :
    List Nat :=
  getIdleWorkerSIDsAux usesPrioTable ws 1

/-- Polling up to `batch` requests off the ingress queue
(`network().Poll` inside the bounded for-loop, breaking on empty). -/
def pollBatch (batch : Nat) (ingress : List Nat) : List Nat × List Nat :=
  (ingress.take batch, ingress.drop batch)

/-- Assigning a batch of `n` requests to worker `sid`: store
`num_requests = n` (release), then mark runnable (the priority-table write
sets the `SCHED_ITEM_RUNNABLE` flag, so the worker is no longer idle). -/
def assignWorker (ws : List WorkerView) (sid : Nat) (n : Nat) :
    List WorkerView :=
  ws.set (sid - 1) { num_requests := n, idle := false }

/-- Result of one `LoadGenerator` pass. -/
structure LGResult where
  workers : List WorkerView
  marked : List Nat
  ingress : List Nat
deriving Repr, DecidableEq

/-- The assignment loop of `LoadGenerator`: iterate `size` times over the
front of `idle_sids_`, poll a batch, and either assign it to the front
worker and mark that worker runnable, or stop when the ingress queue is
dry. -/
def loadGenLoop (batch : Nat) :
    Nat → List Nat → List WorkerView → List Nat → List Nat → LGResult
  | 0, _, ws, marked, ingress =>
    { workers := ws, marked := marked, ingress := ingress }
  | _ + 1, [], ws, marked, ingress =>
    { workers := ws, marked := marked, ingress := ingress }
  | fuel + 1, sid :: rest, ws, marked, ingress =>
    let pb := pollBatch batch ingress
    if pb.1.isEmpty then
      { workers := ws, marked := marked, ingress := ingress }
    else
      loadGenLoop batch fuel rest (assignWorker ws sid pb.1.length)
        (marked ++ [sid]) pb.2

/-- One `LoadGenerator` pass (priority-table or futex path according to
`usesPrioTable`, which only affects which workers are collected). -/
def loadGenerator (usesPrioTable : Bool) (batch : Nat)
    (ws : List WorkerView) (ingress : List Nat) : LGResult :=
  let sids := getIdleWorkerSIDs usesPrioTable ws
  loadGenLoop batch sids.length sids ws [] ingress

/-! ### Worker (`GhostOrchestrator::Worker`) as an event trace -/

/-- Observable actions of one `Worker` invocation, in program order. -/
inductive WEvent where
  | firstRunSetup
  | futexFirstWait
  | process (i : Nat)
  | record (i : Nat)
  | storeZero
  | markIdle
  | wait
deriving Repr, DecidableEq

/-- The trace of one `Worker(sid)` invocation: first-run setup (plus, on
the futex path only, an initial `WaitUntilRunnable`); an early return when
the acquire load of `num_requests` yields 0; otherwise process and record
each request, then finish in the path-specific order —
priority table: store `num_requests = 0` (release), `MarkIdle`,
`WaitUntilRunnable`; futex: `MarkIdle`, store `num_requests = 0`
(release), `WaitUntilRunnable`. -/
def workerTrace (firstRun usesPrioTable : Bool) (numRequests : Nat) :
    List WEvent :=
  let pre :=
    if firstRun then
      WEvent.firstRunSetup ::
        (if usesPrioTable then [] else [WEvent.futexFirstWait])
    else []
  if numRequests = 0 then pre
  else
    pre ++
      ((List.range numRequests).flatMap
        (fun i => [WEvent.process i, WEvent.record i])) ++
      (if usesPrioTable then
        [WEvent.storeZero, WEvent.markIdle, WEvent.wait]
      else
        [WEvent.markIdle, WEvent.storeZero, WEvent.wait])

end GhostOrchestrator


namespace GhostCfs

/-! ## Order lemmas for `lessTask` and `leftmost` -/

theorem lessTask_iff (a b : CfsTask) :
    lessTask a b = true ↔
      (a.vruntime < b.vruntime ∨
        (a.vruntime = b.vruntime ∧ a.gtid < b.gtid)) := by
  simp [lessTask, Bool.or_eq_true, Bool.and_eq_true, decide_eq_true_eq,
    beq_iff_eq]

theorem lessTask_false_iff (a b : CfsTask) :
    lessTask a b = false ↔
      ¬(a.vruntime < b.vruntime ∨
        (a.vruntime = b.vruntime ∧ a.gtid < b.gtid)) := by
  rw [← lessTask_iff, Bool.eq_false_iff, Ne, Bool.not_eq_true]

theorem lessTask_irrefl (a : CfsTask) : lessTask a a = false := by
  rw [lessTask_false_iff]
  omega

/-- From `r ≤ b` and `b < t` conclude `r < t`, i.e. `¬ (t < r)`. -/
theorem lessTask_chain {b r t : CfsTask} (h1 : lessTask b r = false)
    (h2 : lessTask b t = true) : lessTask t r = false := by
  rw [lessTask_false_iff] at h1 ⊢
  rw [lessTask_iff] at h2
  omega

/-- From `t ≤ b` and `r ≤ t` conclude `r ≤ b`, i.e. `¬ (b < r)`. -/
theorem lessTask_trans_false {b r t : CfsTask} (h1 : lessTask b t = false)
    (h2 : lessTask t r = false) : lessTask b r = false := by
  rw [lessTask_false_iff] at h1 h2 ⊢
  omega

theorem foldl_minTask_mem (ts : List CfsTask) :
    ∀ t : CfsTask, ts.foldl minTask t = t ∨ ts.foldl minTask t ∈ ts := by
  induction ts with
  | nil => intro t; exact Or.inl rfl
  | cons b ts ih =>
    intro t
    simp only [List.foldl_cons]
    rcases ih (minTask t b) with h | h
    · rw [h]
      unfold minTask
      split
      · exact Or.inr (List.mem_cons_self b ts)
      · exact Or.inl rfl
    · exact Or.inr (List.mem_cons_of_mem b h)

theorem foldl_minTask_not_lt (ts : List CfsTask) :
    ∀ t u : CfsTask, (u = t ∨ u ∈ ts) →
      lessTask u (ts.foldl minTask t) = false := by
  induction ts with
  | nil =>
    intro t u h
    rcases h with rfl | h
    · exact lessTask_irrefl u
    · cases h
  | cons b ts ih =>
    intro t u h
    simp only [List.foldl_cons]
    rcases h with rfl | h
    · by_cases hb : lessTask b u = true
      · have hmin : minTask u b = b := by unfold minTask; simp [hb]
        rw [hmin]
        have hbres : lessTask b (ts.foldl minTask b) = false :=
          ih b b (Or.inl rfl)
        exact lessTask_chain hbres hb
      · have hb' : lessTask b u = false := by
          cases hhb : lessTask b u
          · rfl
          · exact absurd hhb hb
        have hmin : minTask u b = u := by unfold minTask; simp [hb']
        rw [hmin]
        exact ih u u (Or.inl rfl)
    · rcases List.mem_cons.mp h with rfl | h
      · by_cases hb : lessTask u t = true
        · have hmin : minTask t u = u := by unfold minTask; simp [hb]
          rw [hmin]
          exact ih u u (Or.inl rfl)
        · have hb' : lessTask u t = false := by
            cases hhb : lessTask u t
            · rfl
            · exact absurd hhb hb
          have hmin : minTask t u = t := by unfold minTask; simp [hb']
          rw [hmin]
          have htres : lessTask t (ts.foldl minTask t) = false :=
            ih t t (Or.inl rfl)
          exact lessTask_trans_false hb' htres
      · exact ih (minTask t b) u (Or.inr h)

theorem leftmost_mem {ts : List CfsTask} {l : CfsTask}
    (h : leftmost ts = some l) : l ∈ ts := by
  cases ts with
  | nil => cases h
  | cons t ts =>
    simp only [leftmost, Option.some.injEq] at h
    subst h
    rcases foldl_minTask_mem ts t with h | h
    · rw [h]; exact List.mem_cons_self t ts
    · exact List.mem_cons_of_mem t h

theorem leftmost_not_lt {ts : List CfsTask} {l : CfsTask}
    (h : leftmost ts = some l) : ∀ u ∈ ts, lessTask u l = false := by
  cases ts with
  | nil => cases h
  | cons t ts =>
    simp only [leftmost, Option.some.injEq] at h
    subst h
    intro u hu
    rcases List.mem_cons.mp hu with rfl | hu
    · exact foldl_minTask_not_lt ts u u (Or.inl rfl)
    · exact foldl_minTask_not_lt ts t u (Or.inr hu)

theorem leftmost_vruntime_le {ts : List CfsTask} {l : CfsTask}
    (h : leftmost ts = some l) : ∀ u ∈ ts, l.vruntime ≤ u.vruntime := by
  intro u hu
  have := leftmost_not_lt h u hu
  rw [lessTask_false_iff] at this
  omega

theorem leftmost_eq_none_iff (ts : List CfsTask) :
    leftmost ts = none ↔ ts = [] := by
  cases ts <;> simp [leftmost]

/-! ## Erase lemmas -/

/-- After erasing the (unique) task with gtid `g`, no task with gtid `g`
remains. -/
theorem mem_eraseP_gtid (ts : List CfsTask) (g : Nat)
    (h : (ts.map CfsTask.gtid).Nodup) :
    ∀ u ∈ ts.eraseP (fun x => x.gtid == g), u.gtid ≠ g := by
  induction ts with
  | nil => intro u hu; cases hu
  | cons a ts ih =>
    rw [List.map_cons, List.nodup_cons] at h
    intro u hu
    by_cases ha : a.gtid = g
    · rw [List.eraseP_cons_of_pos (by simpa using ha)] at hu
      intro hg
      apply h.1
      rw [← ha] at hg
      rw [List.mem_map]
      exact ⟨u, hu, hg.symm ▸ rfl⟩
    · rw [List.eraseP_cons_of_neg (by simpa using ha)] at hu
      rcases List.mem_cons.mp hu with rfl | hu
      · exact ha
      · exact ih h.2 u hu

theorem nodup_gtid_eraseP (ts : List CfsTask) (g : Nat)
    (h : (ts.map CfsTask.gtid).Nodup) :
    ((ts.eraseP (fun x => x.gtid == g)).map CfsTask.gtid).Nodup :=
  h.sublist ((ts.eraseP_sublist).map CfsTask.gtid)

@[simp]
theorem updateMinVruntime_tasks (rq : CfsRq) (c : Option CfsTask) :
    (updateMinVruntime rq c).tasks = rq.tasks := rfl

@[simp]
theorem eraseTaskFromRq_min_vruntime (rq : CfsRq) (g : Nat) :
    (eraseTaskFromRq rq g).min_vruntime = rq.min_vruntime := rfl

/-! ## Claim theorems: granularity policy -/

/-- C3: for a run queue with `n` enqueued tasks, `MinPreemptionGranularity`
returns `min_granularity` when `(n+1) * min_granularity > latency`, and
otherwise the ceiling of `latency / (n+1)` in exact integer-nanosecond
arithmetic — characterized as the least `m` with `latency ≤ (n+1) * m`. -/
theorem minPreemptionGranularity_spec (rq : CfsRq) :
    ((rq.tasks.length + 1) * rq.min_granularity > rq.latency →
      minPreemptionGranularity rq = rq.min_granularity) ∧
    ((rq.tasks.length + 1) * rq.min_granularity ≤ rq.latency →
      ∀ m : Nat, minPreemptionGranularity rq ≤ m ↔
        rq.latency ≤ (rq.tasks.length + 1) * m) := by
  constructor
  · intro h
    unfold minPreemptionGranularity
    simp only [if_pos h]
  · intro h m
    unfold minPreemptionGranularity
    rw [if_neg (by omega)]
    simp only [Nat.add_sub_cancel]
    rw [Nat.div_le_iff_le_mul_add_pred (by omega)]
    omega

/-- Witness for `minPreemptionGranularity_spec`: 2 queued tasks,
`min_granularity = 1 ms`, `latency = 6 ms`; the else-branch applies and
yields `2 ms = ceil(6 ms / 3)` — the least `m` with `6000000 ≤ 3 * m`. -/
theorem minPreemptionGranularity_spec_witness :
    (3 * (1000000 : Nat) ≤ 6000000) ∧
    (minPreemptionGranularity
        ⟨0, 1000000, 6000000,
          [⟨1, 0, 0, 0, 0, CfsTaskState.kRunnable, 0⟩,
           ⟨2, 0, 0, 0, 0, CfsTaskState.kRunnable, 0⟩]⟩ ≤ 2000000 ↔
      (6000000 : Nat) ≤ 3 * 2000000) := by
  exact ⟨by norm_num,
    (minPreemptionGranularity_spec
      ⟨0, 1000000, 6000000,
        [⟨1, 0, 0, 0, 0, CfsTaskState.kRunnable, 0⟩,
         ⟨2, 0, 0, 0, 0, CfsTaskState.kRunnable, 0⟩]⟩).2 (by norm_num) 2000000⟩

/-- C9: `MinPreemptionGranularity` never returns less than
`min_granularity`: the first branch returns it verbatim, and in the second
branch `(n+1) * min_granularity ≤ latency` forces
`ceil(latency / (n+1)) ≥ min_granularity`. -/
theorem minPreemptionGranularity_ge_min_granularity (rq : CfsRq) :
    rq.min_granularity ≤ minPreemptionGranularity rq := by
  simp only [minPreemptionGranularity]
  split
  · exact Nat.le_refl _
  · rename_i h
    simp only [Nat.add_sub_cancel]
    rw [Nat.le_div_iff_mul_le (by omega), Nat.mul_comm]
    omega

/-! ## Claim theorems: Enqueue -/

/-- `InsertTaskIntoRq` conses the task and caches the leftmost vruntime. -/
theorem insertTaskIntoRq_spec (rq : CfsRq) (t : CfsTask) :
    (insertTaskIntoRq rq t).tasks = t :: rq.tasks ∧
    ∃ l, leftmost (t :: rq.tasks) = some l ∧
      (insertTaskIntoRq rq t).min_vruntime = l.vruntime :=
  ⟨rfl, ⟨rq.tasks.foldl minTask t, rfl, rfl⟩⟩

/-- After `InsertTaskIntoRq`, the cached `min_vruntime` is a lower bound on
every queued vruntime. -/
theorem insertTaskIntoRq_min_le (rq : CfsRq) (t : CfsTask) :
    ∀ u ∈ (insertTaskIntoRq rq t).tasks,
      (insertTaskIntoRq rq t).min_vruntime ≤ u.vruntime := by
  intro u hu
  have hl : leftmost (insertTaskIntoRq rq t).tasks =
      some (rq.tasks.foldl minTask t) := rfl
  exact leftmost_vruntime_le hl u hu

/-- C4: `EnqueueTask` on a task with `cpu ≥ 0` clamps its vruntime to
`max(min_vruntime, vruntime)`, marks it kRunnable, inserts it, and caches
`min_vruntime` as the new leftmost vruntime; consequently the enqueued
task's vruntime is at least the queue's `min_vruntime` afterwards.
(The `cpu ≥ 0` hypothesis is the `CHECK_GE(task->cpu, 0)` precondition.) -/
theorem enqueueTask_spec (rq : CfsRq) (t : CfsTask) (_hcpu : 0 ≤ t.cpu) :
    (enqueueTask rq t).2.vruntime = max rq.min_vruntime t.vruntime ∧
    (enqueueTask rq t).2.run_state = CfsTaskState.kRunnable ∧
    (enqueueTask rq t).2 ∈ (enqueueTask rq t).1.tasks ∧
    (∃ l, leftmost (enqueueTask rq t).1.tasks = some l ∧
      (enqueueTask rq t).1.min_vruntime = l.vruntime) ∧
    (enqueueTask rq t).1.min_vruntime ≤ (enqueueTask rq t).2.vruntime := by
  refine ⟨rfl, rfl, List.mem_cons_self _ _, ?_, ?_⟩
  · exact ⟨rq.tasks.foldl minTask (enqueueTask rq t).2, rfl, rfl⟩
  · exact insertTaskIntoRq_min_le rq (enqueueTask rq t).2 (enqueueTask rq t).2
      (List.mem_cons_self _ _)

/-- Witness for `enqueueTask_spec`: enqueue a task with vruntime 3 onto a
queue with `min_vruntime = 10`: the vruntime is clamped to 10 and stays at
least the new `min_vruntime`. -/
theorem enqueueTask_spec_witness :
    (0 : Int) ≤ (CfsTask.mk 7 0 0 3 0 CfsTaskState.kBlocked 0).cpu ∧
    ((enqueueTask ⟨10, 1, 6, []⟩ ⟨7, 0, 0, 3, 0, CfsTaskState.kBlocked, 0⟩).2.vruntime =
        max (CfsRq.mk 10 1 6 []).min_vruntime
          (CfsTask.mk 7 0 0 3 0 CfsTaskState.kBlocked 0).vruntime ∧
      (enqueueTask ⟨10, 1, 6, []⟩ ⟨7, 0, 0, 3, 0, CfsTaskState.kBlocked, 0⟩).2.run_state =
        CfsTaskState.kRunnable ∧
      (enqueueTask ⟨10, 1, 6, []⟩ ⟨7, 0, 0, 3, 0, CfsTaskState.kBlocked, 0⟩).2 ∈
        (enqueueTask ⟨10, 1, 6, []⟩ ⟨7, 0, 0, 3, 0, CfsTaskState.kBlocked, 0⟩).1.tasks ∧
      (∃ l, leftmost (enqueueTask ⟨10, 1, 6, []⟩
          ⟨7, 0, 0, 3, 0, CfsTaskState.kBlocked, 0⟩).1.tasks = some l ∧
        (enqueueTask ⟨10, 1, 6, []⟩
          ⟨7, 0, 0, 3, 0, CfsTaskState.kBlocked, 0⟩).1.min_vruntime = l.vruntime) ∧
      (enqueueTask ⟨10, 1, 6, []⟩ ⟨7, 0, 0, 3, 0, CfsTaskState.kBlocked, 0⟩).1.min_vruntime ≤
        (enqueueTask ⟨10, 1, 6, []⟩ ⟨7, 0, 0, 3, 0, CfsTaskState.kBlocked, 0⟩).2.vruntime) :=
  ⟨by decide,
    enqueueTask_spec ⟨10, 1, 6, []⟩ ⟨7, 0, 0, 3, 0, CfsTaskState.kBlocked, 0⟩ (by decide)⟩

/-! ## Claim theorems: min_vruntime monotonicity (C2) -/

/-- C2 counterexample: a fully reachable operation sequence on one CPU
under which `min_vruntime` DECREASES.  Start with an empty queue
(`min_vruntime = 0`, `cs->current = null`): enqueue A (gtid 1, vruntime 5)
and B (gtid 2, vruntime 20); `PickNextTask(null)` picks A and
`UpdateMinVruntime` raises `min_vruntime` to B's 20; a tick sets
`preempt_curr`, and the next `PickNextTask(A)` puts A (vruntime still 5)
back via `PutPrevTask` — `InsertTaskIntoRq` overwrites
`min_vruntime_ = (*rq_.begin())->vruntime = 5`, and the pass ends with
`min_vruntime = 5 < 20`.  This refutes "min_vruntime never decreases". -/
theorem minVruntime_decrease_counterexample :
    (pickNextTask none
        (enqueueTask (enqueueTask ⟨0, 1000000, 6000000, []⟩
            ⟨1, 0, 0, 5, 0, CfsTaskState.kBlocked, 0⟩).1
          ⟨2, 0, 0, 20, 0, CfsTaskState.kBlocked, 0⟩).1
        false).rq.min_vruntime = 20 ∧
    (pickNextTask
        (pickNextTask none
          (enqueueTask (enqueueTask ⟨0, 1000000, 6000000, []⟩
              ⟨1, 0, 0, 5, 0, CfsTaskState.kBlocked, 0⟩).1
            ⟨2, 0, 0, 20, 0, CfsTaskState.kBlocked, 0⟩).1
          false).next
        (pickNextTask none
          (enqueueTask (enqueueTask ⟨0, 1000000, 6000000, []⟩
              ⟨1, 0, 0, 5, 0, CfsTaskState.kBlocked, 0⟩).1
            ⟨2, 0, 0, 20, 0, CfsTaskState.kBlocked, 0⟩).1
          false).rq
        true).rq.min_vruntime = 5 ∧
    (5 : Nat) < 20 := by
  decide

/-- C2 (amended): per CPU, `min_vruntime` never decreases under
`UpdateMinVruntime` and `Erase`, and never decreases under `EnqueueTask`
provided `min_vruntime` is a lower bound on the queued vruntimes (which
insertion re-establishes); but `PutPrevTask` — reached from the PickNext
reconciliation of a still-runnable or preempted previous task — sets
`min_vruntime` to the new leftmost vruntime, which is below the old
`min_vruntime` whenever the re-inserted task's vruntime is, so over a
PickNext that re-queues the previously running task `min_vruntime` can
decrease (see the counterexample). -/
theorem minVruntime_monotone_amended (rq : CfsRq) (curr : Option CfsTask)
    (t u : CfsTask) (g : Nat)
    (h : ∀ v ∈ rq.tasks, rq.min_vruntime ≤ v.vruntime) :
    rq.min_vruntime ≤ (updateMinVruntime rq curr).min_vruntime ∧
    rq.min_vruntime ≤ (enqueueTask rq t).1.min_vruntime ∧
    (eraseTaskFromRq rq g).min_vruntime = rq.min_vruntime ∧
    (u.vruntime < rq.min_vruntime → rq.tasks ≠ [] →
      (putPrevTask rq u).min_vruntime < rq.min_vruntime) := by
  refine ⟨Nat.le_max_left _ _, ?_, rfl, ?_⟩
  · have hl : leftmost ((enqueueTask rq t).1.tasks) =
        some (rq.tasks.foldl minTask (enqueueTask rq t).2) := rfl
    have hmem := leftmost_mem hl
    have heq : (enqueueTask rq t).1.min_vruntime =
        (rq.tasks.foldl minTask (enqueueTask rq t).2).vruntime := rfl
    rw [heq]
    rcases List.mem_cons.mp hmem with he | hm
    · rw [he]
      exact Nat.le_max_left _ _
    · exact h _ hm
  · intro hu _
    have hl : leftmost ((putPrevTask rq u).tasks) =
        some (rq.tasks.foldl minTask u) := rfl
    have heq : (putPrevTask rq u).min_vruntime =
        (rq.tasks.foldl minTask u).vruntime := rfl
    have hle := leftmost_vruntime_le hl u (List.mem_cons_self _ _)
    omega

/-- Witness for `minVruntime_monotone_amended`: queue holding one task
with vruntime 7 and `min_vruntime = 6`; putting back a task with
vruntime 2 drops `min_vruntime` to 2. -/
theorem minVruntime_monotone_amended_witness :
    (∀ v ∈ (CfsRq.mk 6 1 6 [⟨1, 0, 0, 7, 0, CfsTaskState.kRunnable, 0⟩]).tasks,
      (CfsRq.mk 6 1 6 [⟨1, 0, 0, 7, 0, CfsTaskState.kRunnable, 0⟩]).min_vruntime ≤
        v.vruntime) ∧
    ((CfsRq.mk 6 1 6 [⟨1, 0, 0, 7, 0, CfsTaskState.kRunnable, 0⟩]).min_vruntime ≤
      (updateMinVruntime ⟨6, 1, 6, [⟨1, 0, 0, 7, 0, CfsTaskState.kRunnable, 0⟩]⟩
        none).min_vruntime ∧
    (CfsRq.mk 6 1 6 [⟨1, 0, 0, 7, 0, CfsTaskState.kRunnable, 0⟩]).min_vruntime ≤
      (enqueueTask ⟨6, 1, 6, [⟨1, 0, 0, 7, 0, CfsTaskState.kRunnable, 0⟩]⟩
        ⟨2, 0, 0, 3, 0, CfsTaskState.kBlocked, 0⟩).1.min_vruntime ∧
    (eraseTaskFromRq ⟨6, 1, 6, [⟨1, 0, 0, 7, 0, CfsTaskState.kRunnable, 0⟩]⟩
        1).min_vruntime =
      (CfsRq.mk 6 1 6 [⟨1, 0, 0, 7, 0, CfsTaskState.kRunnable, 0⟩]).min_vruntime ∧
    ((CfsTask.mk 3 0 0 2 0 CfsTaskState.kRunnable 0).vruntime <
        (CfsRq.mk 6 1 6 [⟨1, 0, 0, 7, 0, CfsTaskState.kRunnable, 0⟩]).min_vruntime →
      (CfsRq.mk 6 1 6 [⟨1, 0, 0, 7, 0, CfsTaskState.kRunnable, 0⟩]).tasks ≠ [] →
      (putPrevTask ⟨6, 1, 6, [⟨1, 0, 0, 7, 0, CfsTaskState.kRunnable, 0⟩]⟩
          ⟨3, 0, 0, 2, 0, CfsTaskState.kRunnable, 0⟩).min_vruntime <
        (CfsRq.mk 6 1 6 [⟨1, 0, 0, 7, 0, CfsTaskState.kRunnable, 0⟩]).min_vruntime)) :=
  ⟨by decide,
    minVruntime_monotone_amended ⟨6, 1, 6, [⟨1, 0, 0, 7, 0, CfsTaskState.kRunnable, 0⟩]⟩
      none ⟨2, 0, 0, 3, 0, CfsTaskState.kBlocked, 0⟩
      ⟨3, 0, 0, 2, 0, CfsTaskState.kRunnable, 0⟩ 1 (by decide)⟩

/-! ## Claim theorems: PickNextTask (C1) -/

/-- Reconciliation preserves distinctness of queued gtids, given that the
previous task (the on-cpu one) is not itself queued. -/
theorem reconcilePrev_nodup (prev : Option CfsTask) (rq : CfsRq)
    (hnd : (rq.tasks.map CfsTask.gtid).Nodup)
    (hprev : ∀ p, prev = some p → p.gtid ∉ rq.tasks.map CfsTask.gtid) :
    ((reconcilePrev prev rq).1.tasks.map CfsTask.gtid).Nodup := by
  cases prev with
  | none => exact hnd
  | some p =>
    have hp := hprev p rfl
    cases hs : p.run_state with
    | kBlocked => simpa only [reconcilePrev, hs] using hnd
    | kDone =>
      simp only [reconcilePrev, hs]
      exact nodup_gtid_eraseP rq.tasks p.gtid hnd
    | kRunnable =>
      simp only [reconcilePrev, hs, putPrevTask, insertTaskIntoRq, List.map_cons,
        List.nodup_cons]
      exact ⟨hp, hnd⟩
    | kRunning =>
      simp only [reconcilePrev, hs, putPrevTask, insertTaskIntoRq, List.map_cons,
        List.nodup_cons]
      exact ⟨hp, hnd⟩

/-- C1: `PickNextTask(prev, cs)` on a queue of distinct tasks with `prev`
off-queue.  When `prev` is non-null, still kRunning, and
`cs->preempt_curr` is unset, it returns `prev` and touches nothing
(no free, queue unchanged).  Otherwise, after reconciling `prev`
(kBlocked left off-queue; kDone erased and freed — its gtid is gone from
the final queue; kRunnable put back; kRunning put back demoted): an empty
queue yields null, and a non-empty queue yields the task minimal under the
`(vruntime, identity)` order, returned with `run_state = kRunning` and
`runtime_at_first_pick_ns` snapshotted from its status word, and no longer
present in the resulting run queue. -/
theorem pickNextTask_spec (prev : Option CfsTask) (rq : CfsRq)
    (preemptCurr : Bool)
    (hnd : (rq.tasks.map CfsTask.gtid).Nodup)
    (hprev : ∀ p, prev = some p → p.gtid ∉ rq.tasks.map CfsTask.gtid) :
    ((∃ p, prev = some p ∧ p.run_state = CfsTaskState.kRunning ∧
        preemptCurr = false) →
      (pickNextTask prev rq preemptCurr).next = prev ∧
      (pickNextTask prev rq preemptCurr).rq = rq ∧
      (pickNextTask prev rq preemptCurr).freed = []) ∧
    (¬(∃ p, prev = some p ∧ p.run_state = CfsTaskState.kRunning ∧
        preemptCurr = false) →
      (pickNextTask prev rq preemptCurr).freed = (reconcilePrev prev rq).2.2 ∧
      ((reconcilePrev prev rq).1.tasks = [] →
        (pickNextTask prev rq preemptCurr).next = none) ∧
      ((reconcilePrev prev rq).1.tasks ≠ [] →
        ∃ t, t ∈ (reconcilePrev prev rq).1.tasks ∧
          (∀ u ∈ (reconcilePrev prev rq).1.tasks, lessTask u t = false) ∧
          (pickNextTask prev rq preemptCurr).next =
            some { t with run_state := CfsTaskState.kRunning,
                          runtime_at_first_pick_ns := t.sw_runtime } ∧
          (∀ u ∈ (pickNextTask prev rq preemptCurr).rq.tasks,
            u.gtid ≠ t.gtid)) ∧
      (∀ p, prev = some p → p.run_state = CfsTaskState.kDone →
        (reconcilePrev prev rq).2.2 = [p.gtid] ∧
        ∀ u ∈ (pickNextTask prev rq preemptCurr).rq.tasks,
          u.gtid ≠ p.gtid)) := by
  constructor
  · rintro ⟨p, rfl, hrun, rfl⟩
    simp [pickNextTask, hrun]
  · intro hno
    have hslow : pickNextTask prev rq preemptCurr = pickNextTaskSlow prev rq := by
      cases prev with
      | none => rfl
      | some p =>
        have hcond : ¬(p.run_state = CfsTaskState.kRunning ∧ preemptCurr = false) := by
          intro hc
          exact hno ⟨p, rfl, hc.1, hc.2⟩
        cases hrs : p.run_state with
        | kRunning =>
          cases hpc : preemptCurr with
          | false => exact absurd ⟨hrs, hpc⟩ hcond
          | true => simp [pickNextTask, hrs, hpc]
        | kBlocked => simp [pickNextTask, hrs]
        | kRunnable => simp [pickNextTask, hrs]
        | kDone => simp [pickNextTask, hrs]
    rw [hslow]
    have hnd1 := reconcilePrev_nodup prev rq hnd hprev
    cases hlm : leftmost (reconcilePrev prev rq).1.tasks with
    | none =>
      have htasks : (reconcilePrev prev rq).1.tasks = [] :=
        (leftmost_eq_none_iff _).mp hlm
      refine ⟨?_, ?_, ?_, ?_⟩
      · simp only [pickNextTaskSlow, hlm]
      · intro _
        simp only [pickNextTaskSlow, hlm]
      · intro hne
        exact absurd htasks hne
      · rintro p rfl hdone
        constructor
        · simp [reconcilePrev, hdone]
        · intro u hu
          have hru : (pickNextTaskSlow (some p) rq).rq.tasks =
              (reconcilePrev (some p) rq).1.tasks := by
            simp only [pickNextTaskSlow, hlm, updateMinVruntime_tasks]
          rw [hru, htasks] at hu
          cases hu
    | some t =>
      have hmem := leftmost_mem hlm
      have hmin := leftmost_not_lt hlm
      have hnext : (pickNextTaskSlow prev rq).next =
          some { t with run_state := CfsTaskState.kRunning,
                        runtime_at_first_pick_ns := t.sw_runtime } := by
        simp only [pickNextTaskSlow, hlm]
      have hrqt : (pickNextTaskSlow prev rq).rq.tasks =
          (reconcilePrev prev rq).1.tasks.eraseP (fun u => u.gtid == t.gtid) := by
        simp only [pickNextTaskSlow, hlm, updateMinVruntime_tasks,
          eraseTaskFromRq]
      have hfreed : (pickNextTaskSlow prev rq).freed =
          (reconcilePrev prev rq).2.2 := by
        simp only [pickNextTaskSlow, hlm]
      refine ⟨hfreed, ?_, ?_, ?_⟩
      · intro htasks
        rw [htasks] at hmem
        cases hmem
      · intro _
        refine ⟨t, hmem, hmin, hnext, ?_⟩
        intro u hu
        rw [hrqt] at hu
        exact mem_eraseP_gtid _ t.gtid hnd1 u hu
      · rintro p rfl hdone
        have hrc1 : (reconcilePrev (some p) rq).1.tasks =
            rq.tasks.eraseP (fun u => u.gtid == p.gtid) := by
          simp [reconcilePrev, hdone, eraseTaskFromRq]
        constructor
        · simp [reconcilePrev, hdone]
        · intro u hu
          rw [hrqt] at hu
          have hu1 : u ∈ (reconcilePrev (some p) rq).1.tasks :=
            List.mem_of_mem_eraseP hu
          rw [hrc1] at hu1
          exact mem_eraseP_gtid _ p.gtid hnd u hu1

/-- Witness for `pickNextTask_spec`: no previous task, a queue holding
tasks with vruntimes 9 (gtid 4) and 3 (gtid 5); the non-early branch
applies, the queue is non-empty, and the pick takes gtid 5. -/
theorem pickNextTask_spec_witness :
    (([⟨4, 0, 0, 9, 0, CfsTaskState.kRunnable, 0⟩,
       ⟨5, 0, 0, 3, 0, CfsTaskState.kRunnable, 0⟩] :
        List CfsTask).map CfsTask.gtid).Nodup ∧
    (∀ p : CfsTask, (none : Option CfsTask) = some p →
      p.gtid ∉ ([⟨4, 0, 0, 9, 0, CfsTaskState.kRunnable, 0⟩,
        ⟨5, 0, 0, 3, 0, CfsTaskState.kRunnable, 0⟩] :
          List CfsTask).map CfsTask.gtid) ∧
    (¬(∃ p, (none : Option CfsTask) = some p ∧
        p.run_state = CfsTaskState.kRunning ∧ false = false) →
      (pickNextTask none
          ⟨2, 1, 6, [⟨4, 0, 0, 9, 0, CfsTaskState.kRunnable, 0⟩,
            ⟨5, 0, 0, 3, 0, CfsTaskState.kRunnable, 0⟩]⟩ false).freed =
        (reconcilePrev none
          ⟨2, 1, 6, [⟨4, 0, 0, 9, 0, CfsTaskState.kRunnable, 0⟩,
            ⟨5, 0, 0, 3, 0, CfsTaskState.kRunnable, 0⟩]⟩).2.2 ∧
      ((reconcilePrev none
          ⟨2, 1, 6, [⟨4, 0, 0, 9, 0, CfsTaskState.kRunnable, 0⟩,
            ⟨5, 0, 0, 3, 0, CfsTaskState.kRunnable, 0⟩]⟩).1.tasks = [] →
        (pickNextTask none
          ⟨2, 1, 6, [⟨4, 0, 0, 9, 0, CfsTaskState.kRunnable, 0⟩,
            ⟨5, 0, 0, 3, 0, CfsTaskState.kRunnable, 0⟩]⟩ false).next = none) ∧
      ((reconcilePrev none
          ⟨2, 1, 6, [⟨4, 0, 0, 9, 0, CfsTaskState.kRunnable, 0⟩,
            ⟨5, 0, 0, 3, 0, CfsTaskState.kRunnable, 0⟩]⟩).1.tasks ≠ [] →
        ∃ t, t ∈ (reconcilePrev none
            ⟨2, 1, 6, [⟨4, 0, 0, 9, 0, CfsTaskState.kRunnable, 0⟩,
              ⟨5, 0, 0, 3, 0, CfsTaskState.kRunnable, 0⟩]⟩).1.tasks ∧
          (∀ u ∈ (reconcilePrev none
              ⟨2, 1, 6, [⟨4, 0, 0, 9, 0, CfsTaskState.kRunnable, 0⟩,
                ⟨5, 0, 0, 3, 0, CfsTaskState.kRunnable, 0⟩]⟩).1.tasks,
            lessTask u t = false) ∧
          (pickNextTask none
              ⟨2, 1, 6, [⟨4, 0, 0, 9, 0, CfsTaskState.kRunnable, 0⟩,
                ⟨5, 0, 0, 3, 0, CfsTaskState.kRunnable, 0⟩]⟩ false).next =
            some { t with run_state := CfsTaskState.kRunning,
                          runtime_at_first_pick_ns := t.sw_runtime } ∧
          (∀ u ∈ (pickNextTask none
              ⟨2, 1, 6, [⟨4, 0, 0, 9, 0, CfsTaskState.kRunnable, 0⟩,
                ⟨5, 0, 0, 3, 0, CfsTaskState.kRunnable, 0⟩]⟩ false).rq.tasks,
            u.gtid ≠ t.gtid)) ∧
      (∀ p : CfsTask, (none : Option CfsTask) = some p →
        p.run_state = CfsTaskState.kDone →
        (reconcilePrev none
          ⟨2, 1, 6, [⟨4, 0, 0, 9, 0, CfsTaskState.kRunnable, 0⟩,
            ⟨5, 0, 0, 3, 0, CfsTaskState.kRunnable, 0⟩]⟩).2.2 = [p.gtid] ∧
        ∀ u ∈ (pickNextTask none
            ⟨2, 1, 6, [⟨4, 0, 0, 9, 0, CfsTaskState.kRunnable, 0⟩,
              ⟨5, 0, 0, 3, 0, CfsTaskState.kRunnable, 0⟩]⟩ false).rq.tasks,
          u.gtid ≠ p.gtid)) := by
  refine ⟨by decide, ?_, ?_⟩
  · intro p hp
    cases hp
  · exact (pickNextTask_spec none
      ⟨2, 1, 6, [⟨4, 0, 0, 9, 0, CfsTaskState.kRunnable, 0⟩,
        ⟨5, 0, 0, 3, 0, CfsTaskState.kRunnable, 0⟩]⟩ false
      (by decide) (by intro p hp; cases hp)).2

/-! ## Claim theorems: task freed exactly once (C5) -/

/-- Inductive invariant of the one-CPU, one-task system: the on-cpu task
is never queued; `doneHandled` coincides with state kDone; a kDone task is
off-queue; the allocator has not been invoked before kDone, has not been
invoked while the kDone task is still `cs->current`, and has been invoked
exactly once as soon as the kDone task is no longer current; an unplaced
task is neither current nor queued. -/
def taskInv (s : TaskSysState) : Prop :=
  (s.isCurrent = true → s.inRq = false) ∧
  (s.rstate = CfsTaskState.kDone ↔ s.doneHandled = true) ∧
  (s.rstate = CfsTaskState.kDone → s.inRq = false) ∧
  (s.rstate ≠ CfsTaskState.kDone → s.frees = 0) ∧
  (s.rstate = CfsTaskState.kDone → s.isCurrent = true → s.frees = 0) ∧
  (s.rstate = CfsTaskState.kDone → s.isCurrent = false → s.frees = 1) ∧
  (s.placed = false → s.isCurrent = false ∧ s.inRq = false)

theorem taskInv_init (r : Bool) : taskInv (initTaskSys r) := by
  cases r <;> simp [initTaskSys, taskInv]

theorem taskInv_step (s : TaskSysState) (op : TOp) (hinv : taskInv s)
    (hg : taskGuard s op = true) : taskInv (stepTask s op) := by
  obtain ⟨p, rs, irq, cur, pre, fr, dh⟩ := s
  obtain ⟨h1, h2, h3, h4, h5, h6, h7⟩ := hinv
  cases op <;> cases rs <;> cases cur <;> cases irq <;> cases p <;>
    cases pre <;> cases dh <;>
    simp_all [taskInv, stepTask, taskGuard, reconcileCurr]

/-- Every reachable state satisfies the invariant. -/
theorem taskInv_reach (s : TaskSysState) (h : TaskReach s) : taskInv s := by
  induction h with
  | init r => exact taskInv_init r
  | step op _ hg ih => exact taskInv_step _ op ih hg

/-- C5: over any message sequence TaskNew → (Runnable|Blocked)* → Dead
interleaved with scheduling passes, the task is freed via the allocator
exactly once: never twice (`frees ≤ 1`); not at all before
`HandleTaskDone`; immediately when `HandleTaskDone` finds the task not
current; and when the task was current at `HandleTaskDone`, not yet — the
one free then happens at the next `PickNextTask` (or at the prio-boost
reconciliation of `CfsSchedule`). -/
theorem task_freed_exactly_once (s : TaskSysState) (h : TaskReach s) :
    s.frees ≤ 1 ∧
    (s.doneHandled = false → s.frees = 0) ∧
    (s.doneHandled = true → s.isCurrent = false → s.frees = 1) ∧
    (s.doneHandled = true → s.isCurrent = true →
      s.frees = 0 ∧ (stepTask s TOp.opPick).frees = 1 ∧
        (stepTask s TOp.opPrioBoost).frees = 1) := by
  have hinv := taskInv_reach s h
  obtain ⟨p, rs, irq, cur, pre, fr, dh⟩ := s
  obtain ⟨h1, h2, h3, h4, h5, h6, h7⟩ := hinv
  cases rs <;> cases cur <;> cases irq <;> cases pre <;> cases dh <;>
    simp_all [stepTask, reconcileCurr]

/-- Witness for `task_freed_exactly_once`: TaskNew(runnable) followed by
TaskDead while the task is queued but not current — the free happens in
`HandleTaskDone` itself and `frees = 1`. -/
theorem task_freed_exactly_once_witness :
    TaskReach (stepTask (initTaskSys true) TOp.opDead) ∧
    ((stepTask (initTaskSys true) TOp.opDead).frees ≤ 1 ∧
      ((stepTask (initTaskSys true) TOp.opDead).doneHandled = false →
        (stepTask (initTaskSys true) TOp.opDead).frees = 0) ∧
      ((stepTask (initTaskSys true) TOp.opDead).doneHandled = true →
        (stepTask (initTaskSys true) TOp.opDead).isCurrent = false →
        (stepTask (initTaskSys true) TOp.opDead).frees = 1) ∧
      ((stepTask (initTaskSys true) TOp.opDead).doneHandled = true →
        (stepTask (initTaskSys true) TOp.opDead).isCurrent = true →
        (stepTask (initTaskSys true) TOp.opDead).frees = 0 ∧
          (stepTask (stepTask (initTaskSys true) TOp.opDead)
            TOp.opPick).frees = 1 ∧
          (stepTask (stepTask (initTaskSys true) TOp.opDead)
            TOp.opPrioBoost).frees = 1)) :=
  ⟨TaskReach.step TOp.opDead (TaskReach.init true) (by decide),
    task_freed_exactly_once _
      (TaskReach.step TOp.opDead (TaskReach.init true) (by decide))⟩

/-! ## Claim theorems: Migrate (C6) -/

/-- C6 counterexample: `Migrate` wraps its single `AssociateTask` attempt
in `CHECK(...)`, so a stale-barrier failure ABORTS (modelled `none`)
rather than being retried: with an association oracle that is stale on the
first attempt and succeeds on the second, the source's `Migrate` aborts
while the spec's retry loop would succeed. -/
theorem migrate_counterexample :
    migrate ⟨1, -1, 0, 0, 0, CfsTaskState.kBlocked, 0⟩ 0 ⟨0, 1000000, 6000000, []⟩
        (fun n => if n = 0 then AssocResult.staleBarrier else AssocResult.ok) =
      none ∧
    (migrateSpecRetry ⟨1, -1, 0, 0, 0, CfsTaskState.kBlocked, 0⟩ 0
        ⟨0, 1000000, 6000000, []⟩
        (fun n => if n = 0 then AssocResult.staleBarrier else AssocResult.ok)
        0 2).isSome = true := by
  constructor
  · rfl
  · rfl

/-- C6 (amended): `Migrate(task, cpu, seqnum)` requires `task.cpu == -1`
(the `CHECK_EQ`); it makes exactly one `AssociateTask` attempt under
`CHECK(...)`, so ANY association failure — a stale barrier included — is
fatal; on success it sets `task->cpu` to the target CPU, enqueues the task
(clamped and runnable) on the target run queue, and pings the target. -/
theorem migrate_amended (t : CfsTask) (cpuId : Nat) (rq : CfsRq)
    (assoc : Nat → AssocResult) :
    (t.cpu ≠ -1 → migrate t cpuId rq assoc = none) ∧
    (assoc 0 ≠ AssocResult.ok → migrate t cpuId rq assoc = none) ∧
    (t.cpu = -1 → assoc 0 = AssocResult.ok →
      ∃ ms, migrate t cpuId rq assoc = some ms ∧
        ms.task.cpu = (cpuId : Int) ∧
        ms.task.run_state = CfsTaskState.kRunnable ∧
        ms.task.vruntime = max rq.min_vruntime t.vruntime ∧
        ms.task ∈ ms.rq.tasks ∧
        ms.pinged = true) := by
  refine ⟨?_, ?_, ?_⟩
  · intro h
    unfold migrate
    rw [if_neg h]
  · intro h
    unfold migrate
    split
    · rename_i hc
      cases ha : assoc 0
      · exact absurd ha h
      · simp [ha]
      · simp [ha]
    · rfl
  · intro hc ha
    unfold migrate
    rw [if_pos hc, ha]
    exact ⟨_, rfl, rfl, rfl, rfl, List.mem_cons_self _ _, rfl⟩

/-- Witness for `migrate_amended`: an unplaced task and an association
oracle that succeeds immediately; the success branch applies. -/
theorem migrate_amended_witness :
    ((CfsTask.mk 1 (-1) 0 4 0 CfsTaskState.kBlocked 0).cpu = -1) ∧
    ((fun _ : Nat => AssocResult.ok) 0 = AssocResult.ok) ∧
    (∃ ms, migrate ⟨1, -1, 0, 4, 0, CfsTaskState.kBlocked, 0⟩ 2
        ⟨9, 1000000, 6000000, []⟩ (fun _ => AssocResult.ok) = some ms ∧
      ms.task.cpu = ((2 : Nat) : Int) ∧
      ms.task.run_state = CfsTaskState.kRunnable ∧
      ms.task.vruntime =
        max (CfsRq.mk 9 1000000 6000000 []).min_vruntime
          (CfsTask.mk 1 (-1) 0 4 0 CfsTaskState.kBlocked 0).vruntime ∧
      ms.task ∈ ms.rq.tasks ∧
      ms.pinged = true) :=
  ⟨rfl, rfl,
    (migrate_amended ⟨1, -1, 0, 4, 0, CfsTaskState.kBlocked, 0⟩ 2
      ⟨9, 1000000, 6000000, []⟩ (fun _ => AssocResult.ok)).2.2 rfl rfl⟩

end GhostCfs

namespace GhostOrchestrator

/-! ## Claim theorems: dispatch orchestrator -/

/-- A SID collected by `GetIdleWorkerSIDs` indexes a worker whose
`num_requests` was 0 and which `SkipIdleWorker` let pass. -/
theorem getIdleWorkerSIDsAux_spec (upt : Bool) (ws : List WorkerView) :
    ∀ s0 sid, sid ∈ getIdleWorkerSIDsAux upt ws s0 →
      s0 ≤ sid ∧ ∃ w, ws[sid - s0]? = some w ∧ w.num_requests = 0 ∧
        skipIdleWorker upt w = false := by
  induction ws with
  | nil =>
    intro s0 sid h
    cases h
  | cons w ws ih =>
    intro s0 sid h
    rw [getIdleWorkerSIDsAux, List.mem_append] at h
    rcases h with h | h
    · have hcond : (w.num_requests == 0 && !skipIdleWorker upt w) = true ∧
          sid = s0 := by
        by_cases hc : (w.num_requests == 0 && !skipIdleWorker upt w) = true
        · rw [if_pos hc] at h
          exact ⟨hc, (List.mem_singleton.mp h)⟩
        · rw [if_neg hc] at h
          cases h
      obtain ⟨hc, rfl⟩ := hcond
      rw [Bool.and_eq_true, beq_iff_eq, Bool.not_eq_eq_eq_not, Bool.not_true] at hc
      refine ⟨Nat.le_refl _, w, ?_, hc.1, hc.2⟩
      simp
    · obtain ⟨hle, w', hw', hn, hs⟩ := ih (s0 + 1) sid h
      refine ⟨by omega, w', ?_, hn, hs⟩
      have hidx : sid - s0 = (sid - (s0 + 1)) + 1 := by omega
      rw [hidx]
      simpa using hw'

/-- The SIDs marked runnable by the assignment loop all come from the
collected idle list. -/
theorem loadGenLoop_marked_sub (batch : Nat) :
    ∀ (fuel : Nat) (sids : List Nat) (ws : List WorkerView)
      (marked ingress : List Nat) (x : Nat),
      x ∈ (loadGenLoop batch fuel sids ws marked ingress).marked →
      x ∈ marked ∨ x ∈ sids := by
  intro fuel
  induction fuel with
  | zero =>
    intro sids ws marked ingress x h
    exact Or.inl h
  | succ fuel ih =>
    intro sids ws marked ingress x h
    cases sids with
    | nil => exact Or.inl h
    | cons sid rest =>
      rw [loadGenLoop] at h
      by_cases he : (pollBatch batch ingress).1.isEmpty = true
      · rw [if_pos he] at h
        exact Or.inl h
      · rw [if_neg he] at h
        rcases ih rest (assignWorker ws sid (pollBatch batch ingress).1.length)
            (marked ++ [sid]) (pollBatch batch ingress).2 x h with hm | hr
        · rcases List.mem_append.mp hm with hm | hm
          · exact Or.inl hm
          · exact Or.inr (List.mem_cons.mpr (Or.inl (List.mem_singleton.mp hm)))
        · exact Or.inr (List.mem_cons.mpr (Or.inr hr))

/-- C7: on the priority-table path, a worker is collected as idle only if
its atomic `num_requests` is 0 AND its idle bit is set (`SkipIdleWorker`
skips any worker whose idle bit is unset); the load generator marks
runnable only collected workers, so no worker is marked runnable whose
pre-pass `num_requests` was positive or whose idle bit was unset. -/
theorem dispatch_idle_spec (ws : List WorkerView) (ingress : List Nat)
    (batch sid : Nat) :
    (sid ∈ getIdleWorkerSIDs true ws →
      ∃ w, ws[sid - 1]? = some w ∧ w.num_requests = 0 ∧ w.idle = true) ∧
    (sid ∈ (loadGenerator true batch ws ingress).marked →
      sid ∈ getIdleWorkerSIDs true ws) ∧
    (sid ∈ (loadGenerator true batch ws ingress).marked →
      ∃ w, ws[sid - 1]? = some w ∧ w.num_requests = 0 ∧ w.idle = true) := by
  have hcollect : sid ∈ getIdleWorkerSIDs true ws →
      ∃ w, ws[sid - 1]? = some w ∧ w.num_requests = 0 ∧ w.idle = true := by
    intro h
    obtain ⟨_, w, hw, hn, hs⟩ := getIdleWorkerSIDsAux_spec true ws 1 sid h
    refine ⟨w, hw, hn, ?_⟩
    unfold skipIdleWorker at hs
    rw [if_pos rfl] at hs
    simpa using hs
  have hmarked : sid ∈ (loadGenerator true batch ws ingress).marked →
      sid ∈ getIdleWorkerSIDs true ws := by
    intro h
    unfold loadGenerator at h
    rcases loadGenLoop_marked_sub batch _ _ _ _ _ _ h with hm | hm
    · cases hm
    · exact hm
  exact ⟨hcollect, hmarked, fun h => hcollect (hmarked h)⟩

/-- Witness for `dispatch_idle_spec`: one idle worker with no pending
requests and one pending ingress request; the worker (SID 1) is
collected and marked, and satisfies both idle conditions. -/
theorem dispatch_idle_spec_witness :
    (1 ∈ getIdleWorkerSIDs true [⟨0, true⟩]) ∧
    (1 ∈ (loadGenerator true 4 [⟨0, true⟩] [42]).marked) ∧
    (∃ w, ([⟨0, true⟩] : List WorkerView)[1 - 1]? = some w ∧
      w.num_requests = 0 ∧ w.idle = true) := by
  refine ⟨by decide, by decide, ?_⟩
  exact (dispatch_idle_spec [⟨0, true⟩] [42] 4 1).2.2 (by decide)

/-- C8: a worker that finishes a batch of `n > 0` requests processes every
request first and then, on the priority-table path, stores
`num_requests = 0` (release), marks itself idle, and waits — in that
order; on the futex path it marks itself idle, stores `num_requests = 0`
(release), and waits.  The clear and the idle-mark are ordered oppositely
on the two paths. -/
theorem workerTrace_finish_order (f : Bool) (n : Nat) (h : 0 < n) :
    (∃ l, workerTrace f true n =
        l ++ [WEvent.storeZero, WEvent.markIdle, WEvent.wait] ∧
      ∀ i < n, WEvent.process i ∈ l) ∧
    (∃ l, workerTrace f false n =
        l ++ [WEvent.markIdle, WEvent.storeZero, WEvent.wait] ∧
      ∀ i < n, WEvent.process i ∈ l) := by
  have hmem : ∀ i < n, WEvent.process i ∈
      (List.range n).flatMap (fun i => [WEvent.process i, WEvent.record i]) := by
    intro i hi
    rw [List.mem_flatMap]
    exact ⟨i, List.mem_range.mpr hi, List.mem_cons_self _ _⟩
  constructor
  · refine ⟨(if f then WEvent.firstRunSetup :: (if true then [] else
        [WEvent.futexFirstWait]) else []) ++
        (List.range n).flatMap (fun i => [WEvent.process i, WEvent.record i]),
      ?_, ?_⟩
    · unfold workerTrace
      rw [if_neg (by omega)]
      simp [List.append_assoc]
    · intro i hi
      exact List.mem_append.mpr (Or.inr (hmem i hi))
  · refine ⟨(if f then WEvent.firstRunSetup :: (if false then [] else
        [WEvent.futexFirstWait]) else []) ++
        (List.range n).flatMap (fun i => [WEvent.process i, WEvent.record i]),
      ?_, ?_⟩
    · unfold workerTrace
      rw [if_neg (by omega)]
      simp [List.append_assoc]
    · intro i hi
      exact List.mem_append.mpr (Or.inr (hmem i hi))

/-- Witness for `workerTrace_finish_order`: a non-first-run worker with a
single request. -/
theorem workerTrace_finish_order_witness :
    (0 < 1) ∧
    ((∃ l, workerTrace false true 1 =
        l ++ [WEvent.storeZero, WEvent.markIdle, WEvent.wait] ∧
      ∀ i < 1, WEvent.process i ∈ l) ∧
    (∃ l, workerTrace false false 1 =
        l ++ [WEvent.markIdle, WEvent.storeZero, WEvent.wait] ∧
      ∀ i < 1, WEvent.process i ∈ l)) :=
  ⟨by decide, workerTrace_finish_order false 1 (by decide)⟩

/-- C10: a worker invocation that observes `num_requests = 0` after its
(first-run) wait returns immediately: it processes no request, records no
latency, performs no `num_requests` store, does not mark itself idle, and
does not wait again — the trace is exactly the first-run prefix. -/
theorem workerTrace_zero_requests (f p : Bool) (i : Nat) :
    WEvent.process i ∉ workerTrace f p 0 ∧
    WEvent.record i ∉ workerTrace f p 0 ∧
    WEvent.storeZero ∉ workerTrace f p 0 ∧
    WEvent.markIdle ∉ workerTrace f p 0 ∧
    WEvent.wait ∉ workerTrace f p 0 ∧
    workerTrace f p 0 =
      (if f then WEvent.firstRunSetup ::
        (if p then [] else [WEvent.futexFirstWait]) else []) := by
  cases f <;> cases p <;> simp [workerTrace]

end GhostOrchestrator